import Mathlib

set_option maxRecDepth 8192

/-!
Verification of the gracevisor per-application instance engine and reverse
proxy (files `config.go` and the app logic of the repository) against its
natural-language specification.

The Go code is shallowly embedded: pure control flow becomes Lean functions,
lock-protected critical sections become atomic actions of a step relation,
`uint32` arithmetic is `Nat` with an explicit `% 2^32`, and fallible calls
return `Option`.  Parts of the repository that are referenced but whose
source is not available (the `Instance` type with `Serve`, `Done`, `Stop`,
`Hostname`, the `NewInstance` constructor and the port pool) are modelled
from the specification and marked as such in their doc comments.
-/

namespace Gracevisor

/-! ### Character constants used by the string models -/

def spaceChar : Char := Char.ofNat 32

def quoteChar : Char := Char.ofNat 34

def commaChar : Char := Char.ofNat 44

def colonChar : Char := Char.ofNat 58

def backslashChar : Char := Char.ofNat 92

def delChar : Char := Char.ofNat 127

/-! ### Instance and App data model -/

/-- The instance lifecycle statuses of the source
(`InstanceStatusStarting`, ..., `InstanceStatusExited`). -/
inductive InstanceStatus where
  | starting
  | serving
  | stopping
  | stopped
  | failed
  | exited
deriving DecidableEq, Repr

/-- Modelled from the spec: an Instance owns an id (per-App 32-bit counter
value), its internal host and port, and a lifecycle status.  The `Instance`
type itself is not among the provided sources; only the fields the claims
need are modelled. -/
structure Instance where
  id : Nat
  internalHost : String
  port : Nat
  status : InstanceStatus
deriving DecidableEq, Repr

/-- Modelled from the spec: `Instance.Hostname()` returns
`internalHost:port`. -/
def Instance.hostname (i : Instance) : String :=
  i.internalHost ++ ":" ++ toString i.port

/-- Modelled from the spec: `Instance.Stop()` is idempotent and transitions
`Starting` or `Serving` to `Stopping`; in any other status it has no
status effect. -/
def Instance.stop (i : Instance) : Instance :=
  if i.status = .starting ∨ i.status = .serving then
    { i with status := .stopping }
  else
    i

/-- Modelled from the spec: the shared pool of free internal ports. -/
structure PortPool where
  freePorts : List Nat
deriving DecidableEq, Repr

/-- The App record of the source: its instance list, the active-instance
slot (a nil-able pointer, embedded as `Option`), the 32-bit `instanceId`
counter and the port pool.  The active-instance mutex does not appear as
data; the code regions it protects are embedded as atomic operations. -/
structure App where
  internalHost : String
  instances : List Instance
  activeInstance : Option Instance
  instanceId : Nat
  portPool : PortPool
deriving DecidableEq, Repr

/-! ### reserveInstance and ServeHTTP -/

/-- Result of `reserveInstance`: the reserved instance (`none` encodes the
`ErrNoActiveInstances` error return) and the `Serve()` calls issued,
recorded by instance id. -/
structure ReserveOut where
  inst : Option Instance
  serveCalls : List Nat
deriving DecidableEq, Repr

/-- Shallow embedding of `App.reserveInstance`: under the active-instance
lock, if `activeInstance` is nil return `ErrNoActiveInstances`, otherwise
call `Serve()` on the active instance and return it.  The whole function
body runs under the lock, so it is embedded as one atomic operation. -/
def App.reserveInstance (a : App) : ReserveOut :=
  match a.activeInstance with
  | none => { inst := none, serveCalls := [] }
  | some i => { inst := some i, serveCalls := [i.id] }

/-- Request data relevant to the proxy rewrite: the client remote address,
the URL scheme and host, and the header list (in insertion order). -/
structure Request where
  remoteAddr : String
  scheme : String
  host : String
  headers : List (String × String)
deriving DecidableEq, Repr

/-- How the body of the handler finishes after a successful reservation:
the proxy round trip completes normally, the proxy reports an upstream
error, or a panic is raised inside the handler. -/
inductive ProxyOutcome where
  | normal
  | proxyError
  | handlerPanic
deriving DecidableEq, Repr

/-- The value recovered by the deferred function of `ServeHTTP`: the
`ErrNoActiveInstances` panic, or any other panic value. -/
inductive PanicVal where
  | errNoActiveInstances
  | other
deriving DecidableEq, Repr

/-- Observable outcome of one `ServeHTTP` call: the possibly rewritten
request, the status written directly by the handler, whether the request
body was closed, and the `Serve()` and `Done()` calls, by instance id. -/
structure ServeResult where
  req : Request
  wroteStatus : Option Nat
  bodyClosed : Bool
  serveCalls : List Nat
  doneCalls : List Nat
deriving DecidableEq, Repr

/-- Models the host result of `net.SplitHostPort` on an address of the form
`host:port`: the characters before the last colon; empty when the address
has no colon (`ServeHTTP` discards the error return, leaving `host`
empty in that case). -/
def splitHostPortHost (s : String) : String :=
  match s.toList.reverse.dropWhile (fun c => c ≠ colonChar) with
  | [] => ""
  | _ :: rest => String.mk rest.reverse

/-- The deferred function of `ServeHTTP`: recover a panic (a recovered
`ErrNoActiveInstances` writes status 503 and closes the request body; any
other recovered panic is only logged), then call `Done()` on the instance
when one was reserved. -/
def deferredRecover (panicked : Option PanicVal) (inst : Option Instance)
    (r : ServeResult) : ServeResult :=
  let r1 :=
    match panicked with
    | some PanicVal.errNoActiveInstances =>
        { r with wroteStatus := some 503, bodyClosed := true }
    | some PanicVal.other => r
    | none => r
  match inst with
  | some i => { r1 with doneCalls := r1.doneCalls ++ [i.id] }
  | none => r1

/-- Shallow embedding of `App.ServeHTTP`: reserve the active instance
(panicking with `ErrNoActiveInstances` when there is none, which the
deferred function turns into a 503 and a closed body), rewrite the request
(scheme `http`, host set to the instance hostname, `X-Real-IP` added from
the remote address) and run the reverse proxy; the deferred function runs
on every exit path and calls `Done()` when an instance was reserved. -/
def App.serveHTTP (a : App) (req : Request) (outcome : ProxyOutcome) :
    ServeResult :=
  let res := a.reserveInstance
  match res.inst with
  | none =>
      deferredRecover (some PanicVal.errNoActiveInstances) none
        { req := req, wroteStatus := none, bodyClosed := false,
          serveCalls := res.serveCalls, doneCalls := [] }
  | some i =>
      let req1 : Request :=
        { req with
          scheme := "http",
          host := i.hostname,
          headers := req.headers ++
            [("X-Real-IP", splitHostPortHost req.remoteAddr)] }
      let panicked : Option PanicVal :=
        match outcome with
        | ProxyOutcome.normal => none
        | ProxyOutcome.proxyError => none
        | ProxyOutcome.handlerPanic => some PanicVal.other
      deferredRecover panicked (some i)
        { req := req1, wroteStatus := none, bodyClosed := false,
          serveCalls := res.serveCalls, doneCalls := [] }

/-! ### The updater loop body -/

/-- Events emitted by one iteration of the updater loop body, in program
order: lock operations on the active-instance mutex, the read of the prior
active and the write of the new one, and `Stop()` calls by instance id. -/
inductive UpdEvent where
  | lockAcquire
  | readPrior (prior : Option Nat)
  | writeActive (id : Nat)
  | lockRelease
  | stopCall (id : Nat)
  | clearActive
deriving DecidableEq, Repr

/-- Shallow embedding of one iteration of the updater loop body for one
instance, given the status returned by `UpdateStatus()`: a `Serving`
status from a non-active instance performs the promotion (lock, read the
prior active, write the new active, unlock, then `Stop()` the prior active
outside the lock when there is one); an `Exited` status clears the
active-instance slot.  Returns the new active slot and the emitted events
in program order. -/
def updaterStep (active : Option Instance) (inst : Instance)
    (status : InstanceStatus) : Option Instance × List UpdEvent :=
  if status = InstanceStatus.serving ∧ some inst ≠ active then
    let currentActive := active
    (some inst,
      [UpdEvent.lockAcquire, UpdEvent.readPrior (currentActive.map Instance.id),
        UpdEvent.writeActive inst.id, UpdEvent.lockRelease] ++
      (match currentActive with
       | some j => [UpdEvent.stopCall j.id]
       | none => []))
  else if status = InstanceStatus.exited then
    (none, [UpdEvent.clearActive])
  else
    (active, [])

/-! ### StartNewInstance -/

/-- The 32-bit modulus of the `uint32` instance-id counter. -/
def uint32Mod : Nat := 4294967296

/-- Models Go's `atomic.AddUint32(&x, 1)`: increment with 32-bit
wraparound, returning the stored (post-increment) value. -/
def addUint32 (c : Nat) : Nat := (c + 1) % uint32Mod

/-- Modelled from the spec: `NewInstance` reserves a port from the pool
(failing with the port-exhaustion error, encoded as `none`, when the pool
is empty) and creates an instance in state `Starting` bound to that port.
The `NewInstance` function is not among the provided sources. -/
def NewInstance (pool : PortPool) (host : String) (id : Nat) :
    Option (Instance × PortPool) :=
  match pool.freePorts with
  | [] => none
  | p :: rest =>
      some ({ id := id, internalHost := host, port := p,
              status := InstanceStatus.starting },
        { freePorts := rest })

/-- Events emitted by `StartNewInstance` in program order: `Stop()` calls
on instances found in `Starting`, then the creation and the append of the
new instance, by instance id. -/
inductive StartEvent where
  | stopCall (id : Nat)
  | created (id : Nat)
  | appended (id : Nat)
deriving DecidableEq, Repr

/-- The pass over the instance list at the top of `StartNewInstance`:
every instance in `Starting` receives `Stop()`. -/
def stopStartingPass (l : List Instance) : List Instance :=
  l.map (fun i => if i.status = InstanceStatus.starting then i.stop else i)

/-- Result of `StartNewInstance`: the new App state, the emitted events in
program order, and whether the `NewInstance` error was returned. -/
structure StartResult where
  app : App
  events : List StartEvent
  portsExhausted : Bool
deriving DecidableEq, Repr

/-- Shallow embedding of `App.StartNewInstance`: first call `Stop()` on
every instance whose status is `Starting`, then increment the 32-bit id
counter and create the new instance; on `NewInstance` failure the error is
returned and nothing is appended, otherwise the new instance is appended
to the instance list. -/
def App.startNewInstance (a : App) : StartResult :=
  let stopEvents :=
    (a.instances.filter (fun i => i.status = InstanceStatus.starting)).map
      (fun i => StartEvent.stopCall i.id)
  let stopped := stopStartingPass a.instances
  let newId := addUint32 a.instanceId
  match NewInstance a.portPool a.internalHost newId with
  | none =>
      { app := { a with instances := stopped, instanceId := newId },
        events := stopEvents,
        portsExhausted := true }
  | some (ni, pool1) =>
      { app := { a with
            instances := stopped ++ [ni],
            instanceId := newId,
            portPool := pool1 },
        events := stopEvents ++ [StartEvent.created ni.id, StartEvent.appended ni.id],
        portsExhausted := false }

/-- The App state after `n` successive `StartNewInstance` calls. -/
def appAfter (a : App) : Nat → App
  | 0 => a
  | n + 1 => ((appAfter a n).startNewInstance).app

/-! ### Concurrent admission model

The admission path (`reserveInstance` + the deferred `Done()`), the
promotion in the updater loop and the `Exited` clearing all race on the
`activeInstance` slot and on the per-instance `inFlight` counters.  They
are embedded as a step relation whose atomic actions are exactly the
critical sections of the source: `reserveInstance` holds the
active-instance lock around the read of the slot and the `Serve()`
increment, the promotion holds the same lock around the swap, `Done()` is
a single atomic decrement, and `Stop()` touches neither the slot nor the
counters.  Instances and requests are named by `Nat` identifiers.  The
`outstanding` field is auxiliary (ghost) state logging the requests that
have been admitted (`Serve()` called) and not yet completed (`Done()`
called), together with the instance each was admitted against. -/

/-- Pointwise function update, used for the counter maps. -/
def fupd {α : Type} (f : Nat → α) (k : Nat) (v : α) : Nat → α :=
  fun n => if n = k then v else f n

/-- Shared state of the admission model: the active-instance slot, the
per-instance `inFlight` counters, per-request bookkeeping (the instance a
request was admitted against, and whether it completed), and the ghost log
of outstanding (request, instance) admissions. -/
structure Sys where
  active : Option Nat
  inFlight : Nat → Nat
  reserved : Nat → Option Nat
  completed : Nat → Bool
  outstanding : List (Nat × Nat)

/-- The atomic actions of the admission model. -/
inductive Act where
  | admitReq (r : Nat)
  | reject (r : Nat)
  | promote (j : Nat)
  | clearActive
  | stop (j : Nat)
  | complete (r : Nat)

/-- One atomic step.  `admitReq r` is the critical section of
`reserveInstance` for request `r` when an active instance exists: it reads
the slot and increments that instance's `inFlight` under the lock.
`reject r` is the same critical section when the slot is nil (the request
is answered 503 and never counted).  `promote j` is the updater's
lock-protected swap of the slot; `clearActive` is the updater's `Exited`
branch; `stop j` is a `Stop()` call, which touches neither the slot nor
any counter.  `complete r` is the deferred `Done()` of request `r`:
it decrements the counter of the instance recorded at admission. -/
inductive Step : Sys → Act → Sys → Prop where
  | admitReq (s : Sys) (r i : Nat) (hr : s.reserved r = none)
      (ha : s.active = some i) :
      Step s (Act.admitReq r)
        { active := s.active,
          inFlight := fupd s.inFlight i (s.inFlight i + 1),
          reserved := fupd s.reserved r (some i),
          completed := s.completed,
          outstanding := s.outstanding ++ [(r, i)] }
  | reject (s : Sys) (r : Nat) (hr : s.reserved r = none)
      (ha : s.active = none) :
      Step s (Act.reject r) s
  | promote (s : Sys) (j : Nat) :
      Step s (Act.promote j) { s with active := some j }
  | clearActive (s : Sys) :
      Step s Act.clearActive { s with active := none }
  | stop (s : Sys) (j : Nat) :
      Step s (Act.stop j) s
  | complete (s : Sys) (r i : Nat) (hr : s.reserved r = some i)
      (hc : s.completed r = false) :
      Step s (Act.complete r)
        { active := s.active,
          inFlight := fupd s.inFlight i (s.inFlight i - 1),
          reserved := s.reserved,
          completed := fupd s.completed r true,
          outstanding := s.outstanding.filter (fun p => p.1 != r) }

/-- The initial state: no active instance, no admitted request, all
counters zero. -/
def Sys.init : Sys :=
  { active := none, inFlight := fun _ => 0, reserved := fun _ => none,
    completed := fun _ => false, outstanding := [] }

/-- States reachable from the initial state by atomic steps. -/
inductive Reachable : Sys → Prop where
  | init : Reachable Sys.init
  | step {s s' : Sys} {a : Act} : Reachable s → Step s a s' → Reachable s'

/-- The number of outstanding requests counted against instance `i`. -/
def countedOn (s : Sys) (i : Nat) : Nat :=
  (s.outstanding.filter (fun p => p.2 == i)).length

/-- The accounting invariant: the ghost log holds exactly the admitted,
not-yet-completed requests with the instance each was admitted against;
each instance's `inFlight` equals the number of outstanding requests
counted against it; request ids occur at most once in the log; and a
request that was never admitted is not completed. -/
def Inv (s : Sys) : Prop :=
  (∀ r i, (r, i) ∈ s.outstanding ↔
      (s.reserved r = some i ∧ s.completed r = false)) ∧
  (∀ i, s.inFlight i = countedOn s i) ∧
  s.outstanding.Pairwise (fun p q => p.1 ≠ q.1) ∧
  (∀ r, s.reserved r = none → s.completed r = false)

/-! ### Configuration parsing

`ParseConfing` unmarshals the YAML file into `Config` through the vendored
yaml.v2 package, which derives each field's mapping key from the field's
struct tag via `reflect.StructTag.Get` and falls back to the lower-cased
field name.  The source writes the `From` field's tag as a malformed
literal missing its closing quote, so the tag machinery is modelled
faithfully enough to settle what key that field actually gets. -/

/-- Characters allowed in a struct tag key by `reflect.StructTag.Lookup`:
anything above space except colon, quote and the delete character. -/
def tagNameChar (c : Char) : Bool :=
  decide (32 < c.toNat) && c != colonChar && c != quoteChar && c != delChar

/-- Scans a quoted struct tag value after its opening quote, as
`reflect.StructTag.Lookup` does: a backslash skips the next character;
returns the raw content and the remainder after the closing quote, or
`none` when the quote is unterminated (the lookup then stops). -/
def scanQuoted : List Char → Option (List Char × List Char)
  | [] => none
  | c :: rest =>
    if c = quoteChar then some ([], rest)
    else if c = backslashChar then
      match rest with
      | [] => none
      | d :: rest2 =>
        match scanQuoted rest2 with
        | none => none
        | some (v, after) => some (c :: d :: v, after)
    else
      match scanQuoted rest with
      | none => none
      | some (v, after) => some (c :: v, after)

/-- Models `strconv.Unquote` on the already-extracted content of a quoted
tag value, for the escape-free values that occur in the modelled tags:
content without a backslash unquotes to itself. -/
def unquoteSimple (v : List Char) : Option (List Char) :=
  if v.contains backslashChar then none else some v

/-- Models `reflect.StructTag.Lookup`/`Get`: repeatedly skip spaces, scan
a key, require `:"` and a terminated quoted value, and return the value of
the first pair whose key matches; any syntax error before that yields the
empty result.  The fuel argument bounds the number of pairs scanned. -/
def tagLookup : Nat → List Char → List Char → Option (List Char)
  | 0, _, _ => none
  | fuel + 1, key, tag =>
    let tag1 := tag.dropWhile (fun c => c = spaceChar)
    if tag1.isEmpty then none
    else
      let name := tag1.takeWhile tagNameChar
      let rest := tag1.drop name.length
      if name.isEmpty then none
      else
        match rest with
        | c1 :: c2 :: rest2 =>
          if c1 = colonChar ∧ c2 = quoteChar then
            match scanQuoted rest2 with
            | none => none
            | some (v, after) =>
              if key = name then unquoteSimple v
              else tagLookup fuel key after
          else none
        | _ => none

/-- Models `reflect.StructTag.Get` on strings: the value for `key` in the
raw tag, empty when absent or malformed. -/
def structTagGet (rawTag key : String) : String :=
  match tagLookup (rawTag.length + 1) key.toList rawTag.toList with
  | some v => String.mk v
  | none => ""

/-- Models the field-key computation of yaml.v2 `getStructInfo`: read the
`yaml` struct tag; when it is empty and the whole raw tag has no colon,
the raw tag itself is the tag; a tag of `-` skips the field; flags after
the first comma are dropped; an empty key falls back to the lower-cased
field name. -/
def yamlFieldKey (fieldName rawTag : String) : Option String :=
  let t := structTagGet rawTag "yaml"
  let t1 := if t = "" && !(rawTag.toList.contains colonChar) then rawTag else t
  if t1 = "-" then none
  else
    let t2 := String.mk (t1.toList.takeWhile (fun c => c != commaChar))
    if t2 = "" then some (String.mk (fieldName.toList.map Char.toLower))
    else some t2

/-- The `InternalPorts` struct of the source (`From`, `To`, both
`uint32`). -/
structure InternalPorts where
  From : Nat
  To : Nat
deriving DecidableEq, Repr

/-- The raw struct tag of the `From` field, exactly as written in the
source: its closing quote is missing. -/
def fromRawTag : String := "yaml:\"from:"

/-- The raw struct tag of the `To` field. -/
def toRawTag : String := "yaml:\"to\""

/-- Modelled from the vendored yaml.v2 unmarshaller: decoding a mapping of
integer values into `InternalPorts` assigns each field the value found at
its computed yaml key, and Go's zero value when the key is absent or the
field is skipped. -/
def unmarshalInternalPorts (m : List (String × Nat)) : InternalPorts :=
  { From := ((yamlFieldKey "From" fromRawTag).bind (fun k => m.lookup k)).getD 0,
    To := ((yamlFieldKey "To" toRawTag).bind (fun k => m.lookup k)).getD 0 }

/-- The `Config` record, restricted to the `port_range` section the claim
is about. -/
structure Config where
  PortRange : InternalPorts
deriving DecidableEq, Repr

/-- Shallow embedding of `ParseConfing` restricted to the `port_range`
section: the YAML file is abstracted as its already-parsed `port_range`
mapping, which is unmarshalled into `InternalPorts`. -/
def ParseConfing (portRange : List (String × Nat)) : Config :=
  { PortRange := unmarshalInternalPorts portRange }

/-! ## Concrete fixtures used by witnesses and counterexamples -/

/-- A serving instance. -/
def servingInst : Instance :=
  { id := 1, internalHost := "127.0.0.1", port := 10000,
    status := InstanceStatus.serving }

/-- An instance whose child has exited. -/
def exitedInst : Instance :=
  { id := 2, internalHost := "127.0.0.1", port := 10001,
    status := InstanceStatus.exited }

/-- An instance still starting up. -/
def startingInst : Instance :=
  { id := 3, internalHost := "127.0.0.1", port := 10002,
    status := InstanceStatus.starting }

/-- An App whose active instance is `servingInst`. -/
def activeApp : App :=
  { internalHost := "127.0.0.1", instances := [servingInst],
    activeInstance := some servingInst, instanceId := 1,
    portPool := { freePorts := [10003] } }

/-- An App with no active instance. -/
def idleApp : App :=
  { activeApp with activeInstance := none }

/-- A sample incoming request. -/
def sampleReq : Request :=
  { remoteAddr := "10.0.0.7:41000", scheme := "https",
    host := "example.com:443", headers := [] }

/-- An App with one Starting and one Serving instance and a free port. -/
def mixedApp : App :=
  { internalHost := "127.0.0.1", instances := [startingInst, servingInst],
    activeInstance := some servingInst, instanceId := 5,
    portPool := { freePorts := [10006] } }

/-- An App with one Starting instance and an exhausted port pool. -/
def exhaustedApp : App :=
  { internalHost := "127.0.0.1", instances := [startingInst],
    activeInstance := none, instanceId := 3,
    portPool := { freePorts := [] } }

/-- A fresh App with id counter 0 and two free ports. -/
def freshTwoPortApp : App :=
  { internalHost := "127.0.0.1", instances := [], activeInstance := none,
    instanceId := 0, portPool := { freePorts := [20000, 20001] } }

/-- A fresh App with id counter 0 and a pool large enough that the first
2^32 + 1 `StartNewInstance` calls all succeed. -/
def bigPoolApp : App :=
  { internalHost := "127.0.0.1", instances := [], activeInstance := none,
    instanceId := 0,
    portPool := { freePorts := List.range (uint32Mod + 2) } }

/-! ## Shape lemmas for StartNewInstance -/

/-- Stopping an instance does not change its id. -/
theorem stop_id (i : Instance) : (i.stop).id = i.id := by
  unfold Instance.stop
  split <;> rfl

/-- The pre-spawn stop pass preserves the list of instance ids. -/
theorem stopStartingPass_map_id (l : List Instance) :
    (stopStartingPass l).map Instance.id = l.map Instance.id := by
  unfold stopStartingPass
  rw [List.map_map]
  apply List.map_congr_left
  intro i _
  simp only [Function.comp]
  split <;> simp [stop_id]

/-- Shape of a failing `StartNewInstance` call: the pool was empty, the
error is returned, the counter still advances, the pool is untouched, no
instance is appended, and the emitted events are exactly the `Stop()`
calls of the pre-spawn pass. -/
theorem startNewInstance_exhausted (a : App)
    (hfp : a.portPool.freePorts = []) :
    (a.startNewInstance).app.instances = stopStartingPass a.instances ∧
    (a.startNewInstance).app.instanceId = addUint32 a.instanceId ∧
    (a.startNewInstance).app.portPool = a.portPool ∧
    (a.startNewInstance).portsExhausted = true ∧
    (a.startNewInstance).events
      = (a.instances.filter (fun i => i.status = InstanceStatus.starting)).map
          (fun i => StartEvent.stopCall i.id) := by
  simp [App.startNewInstance, NewInstance, hfp]

/-- Shape of a successful `StartNewInstance` call: the new instance is
created with the incremented id and the first free port, and appended
after the pre-spawn stop pass. -/
theorem startNewInstance_success (a : App) (p : Nat) (rest : List Nat)
    (hfp : a.portPool.freePorts = p :: rest) :
    (a.startNewInstance).app.instances
      = stopStartingPass a.instances ++
        [{ id := addUint32 a.instanceId, internalHost := a.internalHost,
           port := p, status := InstanceStatus.starting }] ∧
    (a.startNewInstance).app.instanceId = addUint32 a.instanceId ∧
    (a.startNewInstance).app.portPool = { freePorts := rest } ∧
    (a.startNewInstance).portsExhausted = false ∧
    (a.startNewInstance).events
      = (a.instances.filter (fun i => i.status = InstanceStatus.starting)).map
          (fun i => StartEvent.stopCall i.id)
        ++ [StartEvent.created (addUint32 a.instanceId),
            StartEvent.appended (addUint32 a.instanceId)] := by
  simp [App.startNewInstance, NewInstance, hfp]

/-- Every `StartNewInstance` call advances the 32-bit id counter by one,
with wraparound, whether or not the creation succeeds. -/
theorem startNewInstance_instanceId (a : App) :
    (a.startNewInstance).app.instanceId = addUint32 a.instanceId := by
  rcases hfp : a.portPool.freePorts with _ | ⟨p, rest⟩
  · exact (startNewInstance_exhausted a hfp).2.1
  · exact (startNewInstance_success a p rest hfp).2.1

/-- Each call consumes at most one port from the pool. -/
theorem startNewInstance_pool_length (a : App) :
    a.portPool.freePorts.length
      ≤ (a.startNewInstance).app.portPool.freePorts.length + 1 := by
  rcases hfp : a.portPool.freePorts with _ | ⟨p, rest⟩
  · rw [(startNewInstance_exhausted a hfp).2.2.1, hfp]
    simp
  · rw [(startNewInstance_success a p rest hfp).2.2.1]
    simp [hfp]

/-- After `n` calls at most `n` ports have been consumed. -/
theorem appAfter_pool_length (a : App) (n : Nat) :
    a.portPool.freePorts.length
      ≤ (appAfter a n).portPool.freePorts.length + n := by
  induction n with
  | zero => simp [appAfter]
  | succ n ih =>
      have h := startNewInstance_pool_length (appAfter a n)
      rw [appAfter]
      omega

/-- The id counter after `n` calls is the initial counter plus `n`, modulo
2^32. -/
theorem appAfter_instanceId (a : App) (h0 : a.instanceId < uint32Mod)
    (n : Nat) :
    (appAfter a n).instanceId = (a.instanceId + n) % uint32Mod := by
  induction n with
  | zero => simp [appAfter, Nat.mod_eq_of_lt h0]
  | succ n ih =>
      rw [appAfter, startNewInstance_instanceId, ih, addUint32]
      simp only [uint32Mod]
      omega

/-- A successful call appends an instance whose id is the incremented
counter value. -/
theorem startNewInstance_last_id (a : App)
    (hfp : a.portPool.freePorts ≠ []) :
    ((a.startNewInstance).app.instances.getLast?).map Instance.id
      = some (addUint32 a.instanceId) := by
  rcases hfp2 : a.portPool.freePorts with _ | ⟨p, rest⟩
  · exact absurd hfp2 hfp
  · rw [(startNewInstance_success a p rest hfp2).1]
    simp

/-! ## Claim theorems -/

/-- C2: when the App has no active instance at admission, `ServeHTTP`
responds 503, closes the request body, and calls `Done()` on no
instance. -/
theorem no_active_instance_503 (a : App) (req : Request)
    (outcome : ProxyOutcome) (h : a.activeInstance = none) :
    (a.serveHTTP req outcome).wroteStatus = some 503 ∧
    (a.serveHTTP req outcome).bodyClosed = true ∧
    (a.serveHTTP req outcome).doneCalls = [] := by
  simp [App.serveHTTP, App.reserveInstance, h, deferredRecover]

/-- Witness for C2 at a concrete App with no active instance. -/
theorem no_active_instance_503_witness :
    idleApp.activeInstance = none ∧
    ((idleApp.serveHTTP sampleReq ProxyOutcome.normal).wroteStatus = some 503 ∧
     (idleApp.serveHTTP sampleReq ProxyOutcome.normal).bodyClosed = true ∧
     (idleApp.serveHTTP sampleReq ProxyOutcome.normal).doneCalls = []) :=
  ⟨rfl, no_active_instance_503 idleApp sampleReq ProxyOutcome.normal rfl⟩

/-- C3: whenever an instance was reserved (`Serve()` was called on it),
`ServeHTTP` calls `Done()` on that same instance exactly once, on every
exit path: normal completion, proxy error, and a panic raised inside the
handler all run the deferred function once. -/
theorem serve_done_paired (a : App) (req : Request) (outcome : ProxyOutcome)
    (i : Instance) (h : a.activeInstance = some i) :
    (a.serveHTTP req outcome).serveCalls = [i.id] ∧
    (a.serveHTTP req outcome).doneCalls = [i.id] := by
  cases outcome <;>
    simp [App.serveHTTP, App.reserveInstance, h, deferredRecover]

/-- Witness for C3 at a concrete App, on the handler-panic exit path. -/
theorem serve_done_paired_witness :
    activeApp.activeInstance = some servingInst ∧
    ((activeApp.serveHTTP sampleReq ProxyOutcome.handlerPanic).serveCalls
        = [servingInst.id] ∧
     (activeApp.serveHTTP sampleReq ProxyOutcome.handlerPanic).doneCalls
        = [servingInst.id]) :=
  ⟨rfl, serve_done_paired activeApp sampleReq ProxyOutcome.handlerPanic
    servingInst rfl⟩

/-- C4: in the updater loop, a `Serving` status from an instance that is
not the current active performs the promotion: the new instance is written
as active, a `Stop()` is issued exactly on the prior active (when there is
one), and in the emitted event order the lock is acquired before the swap,
the swap precedes the lock release, and both the swap and the lock release
precede the `Stop()` call. -/
theorem promotion_swap_precedes_stop (active : Option Instance)
    (inst : Instance) (h : some inst ≠ active) :
    (updaterStep active inst InstanceStatus.serving).1 = some inst ∧
    (∀ j, UpdEvent.stopCall j ∈ (updaterStep active inst InstanceStatus.serving).2 ↔
        ∃ p, active = some p ∧ j = p.id) ∧
    (∀ k1 k2 j j',
      (updaterStep active inst InstanceStatus.serving).2.get? k1
          = some (UpdEvent.writeActive j') →
      (updaterStep active inst InstanceStatus.serving).2.get? k2
          = some (UpdEvent.stopCall j) → k1 < k2) ∧
    (∀ k1 k2 j,
      (updaterStep active inst InstanceStatus.serving).2.get? k1
          = some UpdEvent.lockRelease →
      (updaterStep active inst InstanceStatus.serving).2.get? k2
          = some (UpdEvent.stopCall j) → k1 < k2) ∧
    (∀ k1 k2 j,
      (updaterStep active inst InstanceStatus.serving).2.get? k1
          = some UpdEvent.lockAcquire →
      (updaterStep active inst InstanceStatus.serving).2.get? k2
          = some (UpdEvent.writeActive j) → k1 < k2) := by
  cases active with
  | none =>
      have hev : (updaterStep none inst InstanceStatus.serving).2 =
          [UpdEvent.lockAcquire, UpdEvent.readPrior none,
           UpdEvent.writeActive inst.id, UpdEvent.lockRelease] := by
        simp [updaterStep]
      have hact : (updaterStep none inst InstanceStatus.serving).1 = some inst := by
        simp [updaterStep]
      refine ⟨hact, ?_, ?_, ?_, ?_⟩
      · intro j
        rw [hev]
        simp
      · intro k1 k2 j j' h1 h2
        rw [hev] at h2
        have hm := List.get?_mem h2
        simp at hm
      · intro k1 k2 j h1 h2
        rw [hev] at h2
        have hm := List.get?_mem h2
        simp at hm
      · intro k1 k2 j h1 h2
        rw [hev] at h1 h2
        have hk1 : k1 = 0 := by
          rcases k1 with _ | _ | _ | _ | k1 <;> simp_all
        have hk2 : k2 = 2 := by
          rcases k2 with _ | _ | _ | _ | k2 <;> simp_all
        omega
  | some p =>
      have hip : ¬ inst = p := fun hip => h (by rw [hip])
      have hev : (updaterStep (some p) inst InstanceStatus.serving).2 =
          [UpdEvent.lockAcquire, UpdEvent.readPrior (some p.id),
           UpdEvent.writeActive inst.id, UpdEvent.lockRelease,
           UpdEvent.stopCall p.id] := by
        simp [updaterStep, hip]
      have hact : (updaterStep (some p) inst InstanceStatus.serving).1
          = some inst := by
        simp [updaterStep, hip]
      refine ⟨hact, ?_, ?_, ?_, ?_⟩
      · intro j
        rw [hev]
        constructor
        · intro hj
          refine ⟨p, rfl, ?_⟩
          simpa using hj
        · rintro ⟨q, hq, hj⟩
          obtain rfl : p = q := by injection hq
          subst hj
          simp
      · intro k1 k2 j j' h1 h2
        rw [hev] at h1 h2
        have hk1 : k1 = 2 := by
          rcases k1 with _ | _ | _ | _ | _ | k1 <;> simp_all
        have hk2 : k2 = 4 := by
          rcases k2 with _ | _ | _ | _ | _ | k2 <;> simp_all
        omega
      · intro k1 k2 j h1 h2
        rw [hev] at h1 h2
        have hk1 : k1 = 3 := by
          rcases k1 with _ | _ | _ | _ | _ | k1 <;> simp_all
        have hk2 : k2 = 4 := by
          rcases k2 with _ | _ | _ | _ | _ | k2 <;> simp_all
        omega
      · intro k1 k2 j h1 h2
        rw [hev] at h1 h2
        have hk1 : k1 = 0 := by
          rcases k1 with _ | _ | _ | _ | _ | k1 <;> simp_all
        have hk2 : k2 = 2 := by
          rcases k2 with _ | _ | _ | _ | _ | k2 <;> simp_all
        omega

/-- Witness for C4 at a concrete prior active and a concrete newly serving
instance: the promotion writes the new instance and the event order puts
the swap and the lock release before the `Stop()` of the prior active. -/
theorem promotion_swap_precedes_stop_witness :
    (some startingInst : Option Instance) ≠ some servingInst ∧
    (updaterStep (some servingInst) startingInst InstanceStatus.serving).1
      = some startingInst :=
  ⟨by decide,
    (promotion_swap_precedes_stop (some servingInst) startingInst
      (by decide)).1⟩

/-- C5 counterexample: an `Exited` status from an instance that is NOT the
current active does not leave `activeInstance` unchanged — the updater
clears the slot anyway (the source's `else if` branch tests only the
status, not whether the instance is the active one). -/
theorem exited_nonactive_clears_active :
    exitedInst ≠ servingInst ∧
    (updaterStep (some servingInst) exitedInst InstanceStatus.exited).1 = none ∧
    (updaterStep (some servingInst) exitedInst InstanceStatus.exited).1
      ≠ some servingInst := by
  refine ⟨by decide, by decide, by decide⟩

/-- C5 amended: the updater clears `activeInstance` whenever
`UpdateStatus()` returns `Exited` for ANY instance, whether or not that
instance is the current active; in particular it is cleared when the
current active exits. -/
theorem exited_clears_active (active : Option Instance) (inst : Instance) :
    (updaterStep active inst InstanceStatus.exited).1 = none := by
  simp [updaterStep]

/-- C8 counterexample: on a proxied request no `X-Forwarded-For` header is
added to the upstream request (the source leaves it as a TODO), so the
claim that both `X-Real-IP` and `X-Forwarded-For` are added fails. -/
theorem no_x_forwarded_for_added :
    activeApp.activeInstance = some servingInst ∧
    ((activeApp.serveHTTP sampleReq ProxyOutcome.normal).req.headers.map
        Prod.fst).contains "X-Forwarded-For" = false := by
  refine ⟨by decide, by decide⟩

/-- C8 amended: for every proxied request, `ServeHTTP` rewrites the URL
scheme to `http`, sets the URL host to the instance's internal host:port
(`instance.Hostname()`), and adds an `X-Real-IP` header derived from the
original remote address; no `X-Forwarded-For` header is added. -/
theorem request_rewrite (a : App) (req : Request) (outcome : ProxyOutcome)
    (i : Instance) (h : a.activeInstance = some i) :
    (a.serveHTTP req outcome).req.scheme = "http" ∧
    (a.serveHTTP req outcome).req.host = i.hostname ∧
    (a.serveHTTP req outcome).req.headers
      = req.headers ++ [("X-Real-IP", splitHostPortHost req.remoteAddr)] := by
  cases outcome <;>
    simp [App.serveHTTP, App.reserveInstance, h, deferredRecover]

/-- Witness for C8 (amended) at a concrete App and request. -/
theorem request_rewrite_witness :
    activeApp.activeInstance = some servingInst ∧
    ((activeApp.serveHTTP sampleReq ProxyOutcome.normal).req.scheme = "http" ∧
     (activeApp.serveHTTP sampleReq ProxyOutcome.normal).req.host
        = servingInst.hostname ∧
     (activeApp.serveHTTP sampleReq ProxyOutcome.normal).req.headers
        = sampleReq.headers ++
          [("X-Real-IP", splitHostPortHost sampleReq.remoteAddr)]) :=
  ⟨rfl, request_rewrite activeApp sampleReq ProxyOutcome.normal servingInst rfl⟩

/-- C10: a configuration whose `port_range` mapping carries keys `from`
and `to` with uint16 values parses into a `Config` whose `PortRange.From`
and `PortRange.To` equal those values.  (The malformed `From` struct tag
is rejected by the tag parser, and yaml.v2 then falls back to the
lower-cased field name `from`, so the mapping still lands correctly.) -/
theorem parse_config_port_range (f t : Nat) (_hf : f < 65536)
    (_ht : t < 65536) :
    (ParseConfing [("from", f), ("to", t)]).PortRange.From = f ∧
    (ParseConfing [("from", f), ("to", t)]).PortRange.To = t := by
  have hFrom : yamlFieldKey "From" fromRawTag = some "from" := by decide
  have hTo : yamlFieldKey "To" toRawTag = some "to" := by decide
  constructor <;>
    simp [ParseConfing, unmarshalInternalPorts, hFrom, hTo, List.lookup]

/-- Witness for C10 at concrete port bounds. -/
theorem parse_config_port_range_witness :
    (20000 < 65536 ∧ 20010 < 65536) ∧
    ((ParseConfing [("from", 20000), ("to", 20010)]).PortRange.From = 20000 ∧
     (ParseConfing [("from", 20000), ("to", 20010)]).PortRange.To = 20010) :=
  ⟨⟨by decide, by decide⟩,
    parse_config_port_range 20000 20010 (by decide) (by decide)⟩

/-- C6: `StartNewInstance` calls `Stop()` exactly on the instances whose
status is `Starting`, and in the emitted event order every such `Stop()`
precedes the append of the new instance; when creation succeeds the
appended instance carries the freshly incremented id. -/
theorem stop_starting_before_append (a : App) :
    (∀ n, StartEvent.stopCall n ∈ (a.startNewInstance).events ↔
        ∃ i ∈ a.instances, i.status = InstanceStatus.starting ∧ i.id = n) ∧
    ((a.startNewInstance).portsExhausted = false →
        StartEvent.appended (addUint32 a.instanceId)
          ∈ (a.startNewInstance).events) ∧
    (∀ k1 k2 n m,
      (a.startNewInstance).events.get? k1 = some (StartEvent.stopCall n) →
      (a.startNewInstance).events.get? k2 = some (StartEvent.appended m) →
      k1 < k2) := by
  rcases hfp : a.portPool.freePorts with _ | ⟨p, rest⟩
  · obtain ⟨-, -, -, hex, hev⟩ := startNewInstance_exhausted a hfp
    refine ⟨?_, ?_, ?_⟩
    · intro n
      rw [hev]
      simp only [List.mem_map, List.mem_filter, decide_eq_true_eq]
      constructor
      · rintro ⟨i, ⟨hi, hs⟩, he⟩
        injection he with he
        exact ⟨i, hi, hs, he⟩
      · rintro ⟨i, hi, hs, rfl⟩
        exact ⟨i, ⟨hi, hs⟩, rfl⟩
    · intro hfalse
      rw [hex] at hfalse
      exact absurd hfalse (by decide)
    · intro k1 k2 n m h1 h2
      rw [hev] at h2
      have hm := List.get?_mem h2
      simp only [List.mem_map] at hm
      obtain ⟨i, -, he⟩ := hm
      exact absurd he (by simp)
  · obtain ⟨-, -, -, -, hev⟩ := startNewInstance_success a p rest hfp
    refine ⟨?_, ?_, ?_⟩
    · intro n
      rw [hev]
      simp only [List.mem_append, List.mem_map, List.mem_filter,
        decide_eq_true_eq, List.mem_cons, List.not_mem_nil, or_false]
      constructor
      · rintro (⟨i, ⟨hi, hs⟩, he⟩ | he | he)
        · injection he with he
          exact ⟨i, hi, hs, he⟩
        · exact absurd he (by simp)
        · exact absurd he (by simp)
      · rintro ⟨i, hi, hs, rfl⟩
        exact Or.inl ⟨i, ⟨hi, hs⟩, rfl⟩
    · intro _
      rw [hev]
      simp
    · intro k1 k2 n m h1 h2
      rw [hev] at h1 h2
      have hk1 : k1 <
          ((a.instances.filter (fun i => i.status = InstanceStatus.starting)).map
            (fun i => StartEvent.stopCall i.id)).length := by
        by_contra hk
        push_neg at hk
        rw [List.get?_append_right hk] at h1
        have hm := List.get?_mem h1
        simp at hm
      have hk2 : ((a.instances.filter
            (fun i => i.status = InstanceStatus.starting)).map
            (fun i => StartEvent.stopCall i.id)).length ≤ k2 := by
        by_contra hk
        push_neg at hk
        rw [List.get?_append hk] at h2
        have hm := List.get?_mem h2
        simp only [List.mem_map] at hm
        obtain ⟨i, -, he⟩ := hm
        exact absurd he (by simp)
      omega

/-- Witness for C6 at a concrete App holding one Starting and one Serving
instance, with a free port. -/
theorem stop_starting_before_append_witness :
    (mixedApp.startNewInstance).portsExhausted = false ∧
    StartEvent.appended (addUint32 mixedApp.instanceId)
      ∈ (mixedApp.startNewInstance).events :=
  ⟨by decide, (stop_starting_before_append mixedApp).2.1 (by decide)⟩

/-- C7 counterexample: with an exhausted port pool and one Starting
instance, `StartNewInstance` returns the error, but the existing instance
is NOT left unaffected: the pre-spawn `Stop()` pass has already moved it
out of `Starting` before the failure. -/
theorem port_exhaustion_affects_starting :
    exhaustedApp.portPool.freePorts = [] ∧
    (exhaustedApp.startNewInstance).portsExhausted = true ∧
    (exhaustedApp.startNewInstance).app.instances ≠ exhaustedApp.instances := by
  refine ⟨by decide, by decide, by decide⟩

/-- C7 amended: when `NewInstance` fails by port exhaustion,
`StartNewInstance` returns that error and appends nothing: the instance
list keeps exactly the prior instances (same ids, same order), the port
pool is untouched, and every instance not in `Starting` is unchanged; the
instances in `Starting` were already stopped by the pre-spawn pass, which
runs on every call whether or not creation later fails. -/
theorem port_exhaustion_no_append (a : App)
    (h : a.portPool.freePorts = []) :
    (a.startNewInstance).portsExhausted = true ∧
    (a.startNewInstance).app.instances.map Instance.id
      = a.instances.map Instance.id ∧
    (a.startNewInstance).app.portPool = a.portPool ∧
    (a.startNewInstance).app.instances = stopStartingPass a.instances ∧
    (∀ i ∈ a.instances, i.status ≠ InstanceStatus.starting →
        i ∈ (a.startNewInstance).app.instances) := by
  obtain ⟨hins, -, hpool, hex, -⟩ := startNewInstance_exhausted a h
  refine ⟨hex, ?_, hpool, hins, ?_⟩
  · rw [hins, stopStartingPass_map_id]
  · intro i hi hs
    rw [hins]
    unfold stopStartingPass
    rw [List.mem_map]
    exact ⟨i, hi, by simp [hs]⟩

/-- Witness for C7 (amended) at a concrete exhausted App. -/
theorem port_exhaustion_no_append_witness :
    exhaustedApp.portPool.freePorts = [] ∧
    ((exhaustedApp.startNewInstance).portsExhausted = true ∧
     (exhaustedApp.startNewInstance).app.instances.map Instance.id
        = exhaustedApp.instances.map Instance.id) :=
  ⟨rfl, (port_exhaustion_no_append exhaustedApp rfl).1,
    (port_exhaustion_no_append exhaustedApp rfl).2.1⟩

/-- C9 counterexample: the 32-bit id counter wraps, so over one
sufficiently long run ids are reused and not strictly increasing: on an
App with a large enough pool, call number 1 appends an instance with id 1,
call number 2^32 appends id 0 (smaller than an earlier id), and call
number 2^32 + 1 appends id 1 again (a reuse). -/
theorem instance_id_reused :
    ((appAfter bigPoolApp 1).instances.getLast?).map Instance.id = some 1 ∧
    ((appAfter bigPoolApp uint32Mod).instances.getLast?).map Instance.id
      = some 0 ∧
    ((appAfter bigPoolApp (uint32Mod + 1)).instances.getLast?).map Instance.id
      = some 1 ∧
    uint32Mod + 1 ≠ 1 := by
  have hbig : bigPoolApp.portPool.freePorts.length = uint32Mod + 2 := by
    simp [bigPoolApp]
  have hlen : ∀ k, k ≤ uint32Mod + 1 →
      (appAfter bigPoolApp k).portPool.freePorts ≠ [] := by
    intro k hk
    have h := appAfter_pool_length bigPoolApp k
    rw [hbig] at h
    have hpos : 0 < (appAfter bigPoolApp k).portPool.freePorts.length := by
      omega
    exact List.ne_nil_of_length_pos hpos
  have hctr : ∀ k, (appAfter bigPoolApp k).instanceId = k % uint32Mod := by
    intro k
    have h := appAfter_instanceId bigPoolApp
      (by simp [bigPoolApp, uint32Mod]) k
    simpa [bigPoolApp] using h
  have hcall : ∀ k, k ≤ uint32Mod + 1 →
      ((appAfter bigPoolApp (k + 1)).instances.getLast?).map Instance.id
        = some (addUint32 (k % uint32Mod)) := by
    intro k hk
    have h := startNewInstance_last_id (appAfter bigPoolApp k) (hlen k hk)
    rw [hctr k] at h
    rw [appAfter]
    exact h
  refine ⟨?_, ?_, ?_, by simp [uint32Mod]⟩
  · have h := hcall 0 (by omega)
    rw [h]
    simp [addUint32, uint32Mod]
  · have e : uint32Mod - 1 + 1 = uint32Mod := by
      simp [uint32Mod]
    have h := hcall (uint32Mod - 1) (by omega)
    rw [e] at h
    rw [h]
    simp [addUint32, uint32Mod]
  · have h := hcall uint32Mod (by omega)
    rw [h]
    simp [addUint32, uint32Mod]

/-- C9 amended: the ids assigned by successive `StartNewInstance` calls in
one run are strictly increasing (hence unique) as long as the run makes
fewer than 2^32 calls; the counter wraps only after that. -/
theorem instance_ids_strictly_increasing (a : App) (m n : Nat)
    (h0 : a.instanceId = 0) (hm : 0 < m) (hmn : m < n) (hn : n < uint32Mod)
    (hpm : (appAfter a (m - 1)).portPool.freePorts ≠ [])
    (hpn : (appAfter a (n - 1)).portPool.freePorts ≠ []) :
    ∃ im inn : Nat,
      ((appAfter a m).instances.getLast?).map Instance.id = some im ∧
      ((appAfter a n).instances.getLast?).map Instance.id = some inn ∧
      im < inn := by
  have h0lt : a.instanceId < uint32Mod := by
    rw [h0]
    simp [uint32Mod]
  have hm1 : m - 1 + 1 = m := by omega
  have hn1 : n - 1 + 1 = n := by omega
  have hcall : ∀ k, (appAfter a k).portPool.freePorts ≠ [] →
      ((appAfter a (k + 1)).instances.getLast?).map Instance.id
        = some (addUint32 ((a.instanceId + k) % uint32Mod)) := by
    intro k hk
    have h := startNewInstance_last_id (appAfter a k) hk
    rw [appAfter_instanceId a h0lt] at h
    rw [appAfter]
    exact h
  have hcm := hcall (m - 1) hpm
  have hcn := hcall (n - 1) hpn
  rw [hm1] at hcm
  rw [hn1] at hcn
  refine ⟨addUint32 ((a.instanceId + (m - 1)) % uint32Mod),
    addUint32 ((a.instanceId + (n - 1)) % uint32Mod), hcm, hcn, ?_⟩
  rw [h0]
  simp only [addUint32, uint32Mod] at hn ⊢
  omega

/-! ## Lemmas for the admission model -/

/-- Removing the unique pair with key `r` from a key-distinct list removes
exactly one element from the count of pairs on `i` (the instance recorded
with `r`) and none from any other count. -/
theorem filter_remove_key_length (l : List (Nat × Nat)) (r i : Nat)
    (hpw : l.Pairwise (fun p q => p.1 ≠ q.1)) (hmem : (r, i) ∈ l)
    (j : Nat) :
    ((l.filter (fun p => p.1 != r)).filter (fun p => p.2 == j)).length
      = (l.filter (fun p => p.2 == j)).length - (if i = j then 1 else 0) := by
  induction l with
  | nil => exact absurd hmem (List.not_mem_nil _)
  | cons a tl ih =>
      rw [List.pairwise_cons] at hpw
      obtain ⟨hhead, htl⟩ := hpw
      rcases List.mem_cons.mp hmem with heq | hmem'
      · obtain rfl : a = (r, i) := heq.symm
        have htlr : tl.filter (fun p => p.1 != r) = tl := by
          rw [List.filter_eq_self]
          intro p hp
          simpa [bne_iff_ne] using (hhead p hp).symm
        by_cases hij : i = j
        · subst hij
          simp [List.filter_cons, htlr]
        · simp [List.filter_cons, htlr, hij, bne_self_eq_false]
      · have har : ((a.1 != r) = true) := by
          have := hhead (r, i) hmem'
          simpa [bne_iff_ne] using this
        have ihh := ih htl hmem'
        have hY : i = j → 0 < (tl.filter (fun p => p.2 == j)).length := by
          intro hij
          have hmm : (r, i) ∈ tl.filter (fun p => p.2 == j) :=
            List.mem_filter.mpr ⟨hmem', by simp [hij]⟩
          exact List.length_pos.mpr (List.ne_nil_of_mem hmm)
        rw [List.filter_cons, if_pos har]
        rw [List.filter_cons]
        rw [List.filter_cons]
        by_cases haj : ((a.2 == j) = true)
        · rw [if_pos haj, if_pos haj, List.length_cons, List.length_cons]
          by_cases hij : i = j
          · have hpos := hY hij
            rw [if_pos hij] at ihh ⊢
            omega
          · rw [if_neg hij] at ihh ⊢
            omega
        · rw [if_neg haj, if_neg haj]
          exact ihh

/-- The invariant holds initially. -/
theorem inv_init : Inv Sys.init := by
  refine ⟨?_, ?_, ?_, ?_⟩ <;> simp [Sys.init, countedOn]

/-- Every atomic step preserves the accounting invariant. -/
theorem inv_preserved {s s' : Sys} {act : Act} (hstep : Step s act s')
    (hinv : Inv s) : Inv s' := by
  obtain ⟨h1, h2, h3, h4⟩ := hinv
  cases hstep with
  | reject r hr ha => exact ⟨h1, h2, h3, h4⟩
  | promote j => exact ⟨h1, h2, h3, h4⟩
  | clearActive => exact ⟨h1, h2, h3, h4⟩
  | stop j => exact ⟨h1, h2, h3, h4⟩
  | admitReq r i hr ha =>
      refine ⟨?_, ?_, ?_, ?_⟩
      · intro r' i'
        simp only [List.mem_append, List.mem_singleton]
        by_cases hrr : r' = r
        · subst hrr
          constructor
          · rintro (hmem | heq)
            · have hres := ((h1 r' i').mp hmem).1
              rw [hr] at hres
              cases hres
            · injection heq with heqa heqb
              subst heqb
              exact ⟨by simp [fupd], h4 r' hr⟩
          · rintro ⟨hres, -⟩
            right
            simp [fupd] at hres
            rw [hres]
        · constructor
          · rintro (hmem | heq)
            · obtain ⟨hres, hcomp⟩ := (h1 r' i').mp hmem
              exact ⟨by simpa [fupd, hrr] using hres, hcomp⟩
            · injection heq with heqa heqb
              exact absurd heqa hrr
          · rintro ⟨hres, hcomp⟩
            left
            exact (h1 r' i').mpr ⟨by simpa [fupd, hrr] using hres, hcomp⟩
      · intro j
        show fupd s.inFlight i (s.inFlight i + 1) j
          = ((s.outstanding ++ [(r, i)]).filter (fun p => p.2 == j)).length
        rw [List.filter_append, List.length_append]
        by_cases hij : j = i
        · subst hij
          simp [fupd, h2 j, countedOn]
        · have hji : ¬ i = j := fun h => hij h.symm
          simp [fupd, hij, hji, h2 j, countedOn]
      · show List.Pairwise (fun p q => p.1 ≠ q.1) (s.outstanding ++ [(r, i)])
        rw [List.pairwise_append]
        refine ⟨h3, List.pairwise_singleton _ _, ?_⟩
        rintro ⟨p1, p2⟩ hp q hq
        rcases List.mem_singleton.mp hq with rfl
        intro hpr
        have hres := ((h1 p1 p2).mp hp).1
        simp only at hpr
        rw [hpr] at hres
        rw [hr] at hres
        cases hres
      · intro r' hres
        have hres' : fupd s.reserved r (some i) r' = none := hres
        show s.completed r' = false
        by_cases hrr : r' = r
        · subst hrr
          simp [fupd] at hres'
        · rw [show fupd s.reserved r (some i) r' = s.reserved r' by
            simp [fupd, hrr]] at hres'
          exact h4 r' hres'
  | complete r i hr hc =>
      have hmem : (r, i) ∈ s.outstanding := (h1 r i).mpr ⟨hr, hc⟩
      refine ⟨?_, ?_, ?_, ?_⟩
      · intro r' i'
        show (r', i') ∈ s.outstanding.filter (fun p => p.1 != r) ↔ _
        rw [List.mem_filter]
        by_cases hrr : r' = r
        · subst hrr
          simp only [bne_self_eq_false, Bool.false_eq_true, and_false,
            false_iff, not_and]
          intro hres
          simp [fupd]
        · constructor
          · rintro ⟨hmem', -⟩
            obtain ⟨hres, hcomp⟩ := (h1 r' i').mp hmem'
            exact ⟨hres, by simpa [fupd, hrr] using hcomp⟩
          · rintro ⟨hres, hcomp⟩
            refine ⟨(h1 r' i').mpr ⟨hres, by simpa [fupd, hrr] using hcomp⟩, ?_⟩
            simp [bne_iff_ne, hrr]
      · intro j
        show fupd s.inFlight i (s.inFlight i - 1) j
          = ((s.outstanding.filter (fun p => p.1 != r)).filter
              (fun p => p.2 == j)).length
        rw [filter_remove_key_length s.outstanding r i h3 hmem j]
        by_cases hij : j = i
        · subst hij
          simp [fupd, h2 j, countedOn]
        · have hji : ¬ i = j := fun h => hij h.symm
          simp [fupd, hij, hji, h2 j, countedOn]
      · show List.Pairwise (fun p q => p.1 ≠ q.1)
          (s.outstanding.filter (fun p => p.1 != r))
        exact h3.sublist (List.filter_sublist _)
      · intro r' hres
        have hres' : s.reserved r' = none := hres
        show fupd s.completed r true r' = false
        by_cases hrr : r' = r
        · subst hrr
          rw [hres'] at hr
          cases hr
        · rw [show fupd s.completed r true r' = s.completed r' by
            simp [fupd, hrr]]
          exact h4 r' hres'

/-- C1: admission is linearizable and the accounting is stable.  First:
at its (atomic) admission step a request is counted exactly in the
instance the step read from the active slot — since admission and
promotion take the same lock, the request either sees active = A and is
counted in A, or a later active = B and is counted in B; there is no
third outcome.  Second: the instance recorded for an admitted request
never changes afterwards, whatever steps (promotions, clears, stops,
other admissions or completions) are interleaved — the request stays
counted against its admission instance even if that instance ceases to be
active mid-request.  Third: in every reachable state each instance's
`inFlight` equals the number of requests admitted against it and not yet
completed, so the request is counted from admission to completion. -/
theorem admission_linearizable :
    (∀ s s' r, Step s (Act.admitReq r) s' →
      ∃ i, s.active = some i ∧ s'.reserved r = some i ∧
        s'.inFlight i = s.inFlight i + 1) ∧
    (∀ s act s' r i, Step s act s' → s.reserved r = some i →
      s'.reserved r = some i) ∧
    (∀ s, Reachable s → Inv s) := by
  refine ⟨?_, ?_, ?_⟩
  · intro s s' r hstep
    cases hstep with
    | admitReq r i hr ha =>
        exact ⟨i, ha, by simp [fupd], by simp [fupd]⟩
  · intro s act s' r i hstep hres
    cases hstep with
    | admitReq r' i' hr' ha' =>
        show fupd s.reserved r' (some i') r = some i
        by_cases hrr : r = r'
        · subst hrr
          rw [hres] at hr'
          cases hr'
        · rw [show fupd s.reserved r' (some i') r = s.reserved r by
            simp [fupd, hrr]]
          exact hres
    | reject r' hr' ha' => exact hres
    | promote j => exact hres
    | clearActive => exact hres
    | stop j => exact hres
    | complete r' i' hr' hc' => exact hres
  · intro s hreach
    induction hreach with
    | init => exact inv_init
    | step hr hs ih => exact inv_preserved hs ih

/-- Witness for C1: the invariant at the concrete reachable state obtained
by promoting instance 1 and then admitting request 0 against it. -/
theorem admission_linearizable_witness :
    Inv { active := some 1,
          inFlight := fupd Sys.init.inFlight 1 (Sys.init.inFlight 1 + 1),
          reserved := fupd Sys.init.reserved 0 (some 1),
          completed := Sys.init.completed,
          outstanding := Sys.init.outstanding ++ [(0, 1)] } :=
  admission_linearizable.2.2 _
    (Reachable.step (Reachable.step Reachable.init (Step.promote Sys.init 1))
      (Step.admitReq { Sys.init with active := some 1 } 0 1 rfl rfl))

/-- Witness for C9 (amended) at a concrete App with two free ports,
comparing calls 1 and 2. -/
theorem instance_ids_strictly_increasing_witness :
    (freshTwoPortApp.instanceId = 0 ∧ 0 < 1 ∧ 1 < 2 ∧ 2 < uint32Mod ∧
      (appAfter freshTwoPortApp 0).portPool.freePorts ≠ [] ∧
      (appAfter freshTwoPortApp 1).portPool.freePorts ≠ []) ∧
    (∃ im inn : Nat,
      ((appAfter freshTwoPortApp 1).instances.getLast?).map Instance.id
        = some im ∧
      ((appAfter freshTwoPortApp 2).instances.getLast?).map Instance.id
        = some inn ∧
      im < inn) :=
  ⟨⟨rfl, by decide, by decide, by decide, by decide, by decide⟩,
    instance_ids_strictly_increasing freshTwoPortApp 1 2 rfl (by decide)
      (by decide) (by decide) (by decide) (by decide)⟩

end Gracevisor
